import Mathlib

/-!
Shallow embedding of the Notry note store and session controller
(`tn_improved.py`).

Conventions of the embedding:
* Python `str` values are modelled as `List Char` (`Str`).  SQLite
  `lower()` and the case folding of SQLite `LIKE` fold ASCII only and are
  modelled exactly by `lowerChar`.  Python's Unicode-aware `str.lower`,
  `str.isalnum` and `str.strip` are modelled by `pyLowerChar`,
  `pyIsAlnumChar` and `pyIsSpace`: the whitespace set is exact, the other
  two are exact for every code point below U+0100 and treat higher code
  points as case-less non-alphanumerics; theorems whose truth depends on
  those functions state the character range they assume.
* ISO-8601 UTC second timestamps are modelled as `Nat`; the code compares
  them only through SQLite `ORDER BY updated_at DESC`, and lexicographic
  order on fixed-format ISO-8601 UTC strings coincides with numeric order
  on the instants they denote.
* SHA-256 is an external primitive: the store operations take an abstract
  digest function `h : Str → Str`; the pre-hash encoding
  `title + "||" + body` built by `_compute_hash` is modelled exactly.
* `datetime.now()` is an effect: operations that stamp timestamps take the
  current time `now : Nat` as an argument.
* File-system writes performed by `export_separate_files` are returned as
  a list of `(file name, file content)` pairs, in write order.
* The SQLite table is a list of rows plus the `AUTOINCREMENT` counter
  `next_id`; `SELECT ... ORDER BY updated_at DESC` is modelled by a sort
  with the non-increasing-`updated_at` relation (ties are returned in an
  order SQLite does not specify; the sort fixes one such order).
-/

/-- Python strings, as lists of characters. -/
abbrev Str := List Char

/-- Turn a Lean string literal into the `Str` representation. -/
def lit (s : String) : Str := s.toList

/-- ASCII lower-casing of one character: `A`-`Z` map 32 code points up,
everything else is fixed.  This is the folding applied by SQLite `lower()`
and `LIKE`, and by Python `str.lower` on ASCII input. -/
def lowerChar (c : Char) : Char :=
  if 'A' ≤ c ∧ c ≤ 'Z' then Char.ofNat (c.toNat + 32) else c

/-- ASCII lower-casing of a string. -/
def strLower (t : Str) : Str := t.map lowerChar

/-- One non-wildcard pattern character of SQLite `LIKE` matches a text
character up to ASCII case folding. -/
def likeCharMatch (p c : Char) : Bool := lowerChar p == lowerChar c

/-- Helper for the `%` wildcard of `LIKE`: try the rest of the pattern
against every suffix of the text. -/
def likeMatchStar (f : Str → Bool) : Str → Bool
  | [] => f []
  | c :: s' => f (c :: s') || likeMatchStar f s'

/-- SQLite `LIKE` pattern matching (default, no `ESCAPE` clause): `%`
matches any run of characters, `_` matches any single character, any
other pattern character matches one text character up to ASCII case
folding. -/
def likeMatch : Str → Str → Bool
  | [], s => s.isEmpty
  | pc :: ps, s =>
    if pc = '%' then likeMatchStar (likeMatch ps) s
    else
      match s with
      | [] => false
      | c :: s' => if pc = '_' then likeMatch ps s' else likeCharMatch pc c && likeMatch ps s'

/-- The exact set of characters Python `str.strip()` and `str.isspace()`
treat as whitespace: U+0009-U+000D, U+001C-U+0020, U+0085, U+00A0,
U+1680, U+2000-U+200A, U+2028, U+2029, U+202F, U+205F, U+3000. -/
def pyIsSpace (c : Char) : Bool :=
  (decide (9 ≤ c.toNat) && decide (c.toNat ≤ 13)) ||
    (decide (28 ≤ c.toNat) && decide (c.toNat ≤ 32)) ||
    c.toNat == 0x85 || c.toNat == 0xA0 || c.toNat == 0x1680 ||
    (decide (0x2000 ≤ c.toNat) && decide (c.toNat ≤ 0x200A)) ||
    c.toNat == 0x2028 || c.toNat == 0x2029 || c.toNat == 0x202F ||
    c.toNat == 0x205F || c.toNat == 0x3000

/-- Python `not text.strip()`: the string has no non-whitespace character. -/
def isBlank (t : Str) : Bool := t.all pyIsSpace

/-- Python `str.strip()`: drop leading and trailing whitespace. -/
def pyStrip (l : Str) : Str :=
  ((l.dropWhile pyIsSpace).reverse.dropWhile pyIsSpace).reverse

/-- One row of the `notes` table. -/
structure Note where
  id : Nat
  title : Str
  body : Str
  created_at : Nat
  updated_at : Nat
  import_hash : Option Str
deriving DecidableEq, Repr

/-- The `notes` table (list of rows) together with the SQLite
`AUTOINCREMENT` counter: the id handed to the next inserted row. -/
structure NoteStore where
  notes : List Note
  next_id : Nat
deriving DecidableEq, Repr

/-- Model of `NoteStore.count`: `SELECT COUNT(*) FROM notes`. -/
def NoteStore.count (s : NoteStore) : Nat := s.notes.length

/-- The string fed to SHA-256 by `NoteStore._compute_hash`:
`f"{title}||{body}"`. -/
def hashInput (title body : Str) : Str := title ++ ('|' :: '|' :: body)

/-- Model of `NoteStore._compute_hash(title, body)`, with the SHA-256 digest taken
as an abstract function `h`. -/
def compute_hash (h : Str → Str) (title body : Str) : Str := h (hashInput title body)

/-- Model of `NoteStore.note_exists_by_hash`: is some row's `import_hash` equal to
the digest? -/
def NoteStore.note_exists_by_hash (s : NoteStore) (d : Str) : Bool :=
  s.notes.any (fun n => n.import_hash == some d)

/-- Model of `NoteStore.upsert(title, body, note_id, import_hash)` at time `now`.
With `note_id = none` it inserts a fresh row stamped
`created_at = updated_at = now`; otherwise it runs the SQL `UPDATE`,
which rewrites every row whose id matches (refreshing `updated_at` and
overwriting `import_hash`) and touches nothing when no row matches.
Returns the new store and the returned id. -/
def NoteStore.upsert (s : NoteStore) (now : Nat) (title body : Str)
    (note_id : Option Nat) (import_hash : Option Str) : NoteStore × Nat :=
  match note_id with
  | none =>
    let n : Note :=
      { id := s.next_id, title := title, body := body
        created_at := now, updated_at := now, import_hash := import_hash }
    ({ notes := s.notes ++ [n], next_id := s.next_id + 1 }, s.next_id)
  | some nid =>
    ({ s with
        notes := s.notes.map (fun m =>
          if m.id = nid then
            { m with title := title, body := body, updated_at := now
                     import_hash := import_hash }
          else m) },
     nid)

/-- Model of `NoteStore.get`: the row with the given id, or `none`.  (The Python
method projects away `import_hash`; the model returns the full row and
callers project the fields the code reads.) -/
def NoteStore.get (s : NoteStore) (nid : Nat) : Option Note :=
  s.notes.find? (fun n => n.id == nid)

/-- The ordering used by `ORDER BY updated_at DESC`: `a` before `b` when
`b.updated_at ≤ a.updated_at`. -/
def updGe : Note → Note → Prop := fun a b => b.updated_at ≤ a.updated_at

instance : DecidableRel updGe := fun a b => Nat.decLe b.updated_at a.updated_at

instance : IsTotal Note updGe :=
  ⟨fun a b => (Nat.le_total b.updated_at a.updated_at).elim Or.inl Or.inr⟩

instance : IsTrans Note updGe :=
  ⟨fun _ _ _ hab hbc => Nat.le_trans hbc hab⟩

/-- The rows of the table ordered by `updated_at DESC`, as produced by
`NoteStore.all` and by the `ORDER BY` clause of `search`. -/
def NoteStore.sortedNotes (s : NoteStore) : List Note :=
  List.insertionSort updGe s.notes

/-- Python `str.lower` on one character, exact for every code point
below U+0100 (ASCII `A`-`Z` and the Latin-1 uppercase block
U+00C0-U+00DE except the multiplication sign map 32 code points up);
characters at U+0100 and above are mapped to themselves, which is not
faithful to Python there — theorems that depend on this function state
the character range on which it is. -/
def pyLowerChar (c : Char) : Char :=
  if 'A' ≤ c ∧ c ≤ 'Z' then Char.ofNat (c.toNat + 32)
  else if 0xC0 ≤ c.toNat ∧ c.toNat ≤ 0xDE ∧ c.toNat ≠ 0xD7 then Char.ofNat (c.toNat + 32)
  else c

/-- Python `text.lower()` on a string. -/
def strLowerPy (t : Str) : Str := t.map pyLowerChar

/-- The snippet column of `search`: `title || char(10) || body`. -/
def snippet (n : Note) : Str := n.title ++ '\n' :: n.body

/-- The `WHERE` clause of the non-blank branch of `search`:
`lower(title) LIKE '%'+text.lower()+'%' OR lower(body) LIKE ...`. -/
def matchesQuery (text : Str) (n : Note) : Bool :=
  likeMatch ('%' :: (strLowerPy text ++ ['%'])) (strLower n.title) ||
    likeMatch ('%' :: (strLowerPy text ++ ['%'])) (strLower n.body)

/-- The rows selected by `NoteStore.search(text, limit)` before the
snippet projection: blank queries keep every row, other queries filter by
the `LIKE` clause; both order by `updated_at DESC` and apply `LIMIT`. -/
def NoteStore.searchRows (s : NoteStore) (text : Str) (limit : Nat) : List Note :=
  (if isBlank text then s.sortedNotes else s.sortedNotes.filter (matchesQuery text)).take limit

/-- Model of `NoteStore.search(text, limit)`: list of `(id, snippet)` pairs. -/
def NoteStore.search (s : NoteStore) (text : Str) (limit : Nat) : List (Nat × Str) :=
  (s.searchRows text limit).map (fun n => (n.id, snippet n))

/-- Decimal digit characters, for rendering ids the way `f"{nid}"` does. -/
def digitChar : Nat → Char
  | 0 => '0' | 1 => '1' | 2 => '2' | 3 => '3' | 4 => '4'
  | 5 => '5' | 6 => '6' | 7 => '7' | 8 => '8' | _ => '9'

/-- Numeric value of a decimal digit character. -/
def digitVal : Char → Nat
  | '0' => 0 | '1' => 1 | '2' => 2 | '3' => 3 | '4' => 4
  | '5' => 5 | '6' => 6 | '7' => 7 | '8' => 8 | _ => 9

/-- Fuelled helper for decimal rendering (structural recursion so that
the kernel can evaluate it). -/
def natStrAux : Nat → Nat → Str
  | 0, _ => []
  | fuel + 1, n =>
    if n < 10 then [digitChar n]
    else natStrAux fuel (n / 10) ++ [digitChar (n % 10)]

/-- Decimal rendering of a natural number, as done by `f"{nid}"`. -/
def natStr (n : Nat) : Str := natStrAux (n + 1) n

/-- Decimal reading of a digit string (left inverse of `natStr`). -/
def strVal (l : Str) : Nat := l.foldl (fun a c => a * 10 + digitVal c) 0

/-- The Latin-1 (non-ASCII, below U+0100) code points on which Python
`str.isalnum()` is true: the ordinal indicators, superscripts, micro
sign, vulgar fractions, and the letters U+00C0-U+00FF except the
multiplication and division signs. -/
def pyIsAlnumLatin (n : Nat) : Bool :=
  decide (n = 0xAA) || decide (n = 0xB2) || decide (n = 0xB3) || decide (n = 0xB5) ||
    decide (n = 0xB9) || decide (n = 0xBA) || decide (n = 0xBC) || decide (n = 0xBD) ||
    decide (n = 0xBE) ||
    (decide (0xC0 ≤ n) && decide (n ≤ 0xFF) && decide (n ≠ 0xD7) && decide (n ≠ 0xF7))

/-- Python `c.isalnum()`, exact for every code point below U+0100;
characters at U+0100 and above are treated as non-alphanumeric, which is
not faithful to Python there — theorems that depend on this function
state the character range on which it is. -/
def pyIsAlnumChar (c : Char) : Bool := c.isAlphanum || pyIsAlnumLatin c.toNat

/-- The character filter of the export slug: keep alphanumerics (Python
`str.isalnum`), spaces, hyphens and underscores. -/
def slugKeep (c : Char) : Bool := pyIsAlnumChar c || c == ' ' || c == '-' || c == '_'

/-- The slug of `export_separate_files`: filter the title through
`slugKeep`, strip, truncate to 50 characters, fall back to
`f"note-{nid}"` when empty, then replace spaces with hyphens. -/
def slug (nid : Nat) (title : Str) : Str :=
  let safe := (pyStrip (title.filter slugKeep)).take 50
  let safe := if safe = [] then lit "note-" ++ natStr nid else safe
  safe.map (fun c => if c = ' ' then '-' else c)

/-- The export file name `f"note-{nid}-{safe}.md"`. -/
def fileName (nid : Nat) (title : Str) : Str :=
  lit "note-" ++ (natStr nid ++ ('-' :: (slug nid title ++ lit ".md")))

/-- The export file content
`f"# {title}\n\n_Created: {created} · Updated: {updated}_\n\n{body}"`. -/
def fileContent (n : Note) : Str :=
  lit "# " ++ n.title ++ lit "\n\n_Created: " ++ natStr n.created_at ++
    lit " · Updated: " ++ natStr n.updated_at ++ lit "_\n\n" ++ n.body

/-- Model of `NoteStore.export_separate_files(dir_path, note_ids)`.  `note_ids` is
`None` or a list; the Python truthiness test sends both `None` and the
empty list to the export-everything branch.  Returns the sequence of
`(name, content)` writes and the returned count. -/
def NoteStore.export_separate_files (s : NoteStore) (note_ids : Option (List Nat)) :
    List (Str × Str) × Nat :=
  let rows :=
    match note_ids with
    | some (nid :: rest) => ((nid :: rest).map s.get).filterMap id
    | _ => s.sortedNotes
  (rows.map (fun n => (fileName n.id n.title, fileContent n)), rows.length)

/-- Model of `path.stem or "(untitled)"`. -/
def importTitle (stem : Str) : Str := if stem = [] then lit "(untitled)" else stem

/-- Model of `NoteStore.import_text_file(path)` at time `now`, with the file given
by its stem and decoded content and the digest function abstract.
Returns the new store and `(imported, skipped, note_id)`. -/
def NoteStore.import_text_file (s : NoteStore) (h : Str → Str) (now : Nat)
    (stem content : Str) : NoteStore × (Nat × Nat × Option Nat) :=
  let title := importTitle stem
  let d := compute_hash h title content
  if s.note_exists_by_hash d then (s, (0, 1, none))
  else
    let r := s.upsert now title content none (some d)
    (r.1, (1, 0, some r.2))

/-- The session modes of `NotryApp` (`BROWSE` is a modal screen pushed on
top of `SEARCH`, not a value of `self.mode`). -/
inductive Mode
  | SEARCH
  | EDIT
deriving DecidableEq, Repr

/-- Model of `NotryApp.max_rows`. -/
def maxRows : Nat := 500

/-- The session state of `NotryApp`: the store, the modal state, the
edit baseline, the editor text, the search input value, the match list
with its snippets, the focused result row, and the marked set. -/
structure AppState where
  store : NoteStore
  mode : Mode
  editing_note_id : Option Nat
  original_body : Str
  editor_text : Str
  input_value : Str
  match_ids : List Nat
  snips : List Str
  results_index : Option Nat
  marked : Finset Nat
deriving DecidableEq

/-- The note ids currently displayed by the results list
(`set_items` truncates to `max_rows`). -/
def AppState.displayed (a : AppState) : List Nat := a.match_ids.take maxRows

/-- Model of `ResultsList.current_note_id`: the id of the focused row. -/
def AppState.current_note_id (a : AppState) : Option Nat :=
  match a.results_index with
  | none => none
  | some i => a.displayed.get? i

/-- Model of `NotryApp.refresh_search(text)`: run the store search, replace the
match and snippet lists, and rebuild the results rows (which focuses the
first row when any exists). -/
def AppState.refresh_search (a : AppState) (text : Str) : AppState :=
  let pairs := a.store.search text maxRows
  { a with
      match_ids := pairs.map Prod.fst
      snips := pairs.map Prod.snd
      results_index := if pairs.isEmpty then none else some 0 }

/-- Model of `NotryApp.action_toggle_mark`: outside `EDIT`, flip the focused note
id in the marked set, rebuild the rows, and move focus to the next row. -/
def AppState.action_toggle_mark (a : AppState) : AppState :=
  if a.mode = Mode.EDIT then a
  else
    match a.current_note_id with
    | none => a
    | some nid =>
      let marked' := if nid ∈ a.marked then a.marked.erase nid else insert nid a.marked
      let a' := { a with
        marked := marked'
        results_index := if a.displayed.isEmpty then none else some 0 }
      match a.results_index with
      | none => a'
      | some ci =>
        if a'.displayed.isEmpty then a'
        else { a' with results_index := some (min (ci + 1) (a'.displayed.length - 1)) }

/-- Model of `NotryApp.action_mark_all`: outside `EDIT`, add every id of the
current match list to the marked set.  Returns the state and the notices
shown. -/
def AppState.action_mark_all (a : AppState) : AppState × List Str :=
  if a.mode = Mode.EDIT then (a, [])
  else if a.match_ids.isEmpty then (a, [lit "No notes to mark"])
  else
    ({ a with
        marked := a.match_ids.foldl (fun m nid => insert nid m) a.marked
        results_index := if a.displayed.isEmpty then none else some 0 },
     [lit "Marked all notes in current view"])

/-- Model of `NotryApp.action_clear_all_marks`: outside `EDIT`, empty the marked
set. -/
def AppState.action_clear_all_marks (a : AppState) : AppState × List Str :=
  if a.mode = Mode.EDIT then (a, [])
  else if a.marked = ∅ then (a, [lit "No notes are marked"])
  else
    ({ a with
        marked := ∅
        results_index := if a.displayed.isEmpty then none else some 0 },
     [lit "Cleared marked notes"])

/-- The warning surfaced when escape is pressed in `EDIT` with unsaved
changes. -/
def unsavedWarning : Str := lit "Unsaved changes! Ctrl+S to save, :q to quit without saving"

/-- Model of `NotryApp.action_mode_back` (escape): in `EDIT`, refuse to leave when
the editor text differs from the baseline; otherwise return to `SEARCH`,
clear the editing state, and re-run the current search.  Returns the new
state and the notices shown. -/
def AppState.action_mode_back (a : AppState) : AppState × List Str :=
  if a.mode = Mode.EDIT then
    if a.editor_text ≠ a.original_body then (a, [unsavedWarning])
    else
      let a1 := { a with
        mode := Mode.SEARCH
        editing_note_id := none
        original_body := ([] : Str) }
      (a1.refresh_search a1.input_value, [])
  else ({ a with mode := Mode.SEARCH }, [])

/-- Model of `NotryApp.action_save_edit` (Ctrl+S) at time `now`: in `EDIT`, look
up the edited row, upsert its title with the editor text (the
`import_hash` argument is left at its default `None`), refresh the
baseline, and re-run the current search. -/
def AppState.action_save_edit (a : AppState) (now : Nat) : AppState × List Str :=
  if a.mode = Mode.EDIT then
    match a.editing_note_id with
    | none => (a, [])
    | some nid =>
      match a.store.get nid with
      | none => (a, [])
      | some row =>
        let r := a.store.upsert now row.title a.editor_text (some nid) none
        let a1 := { a with store := r.1, original_body := a.editor_text }
        (a1.refresh_search a1.input_value, [lit "Saved note #" ++ natStr nid])
  else (a, [])

/-- Strict descending order on a list of timestamps, the reading of
"ordered strictly by `updated_at` descending" under test in claim C3. -/
def strictDesc : List Nat → Bool
  | [] => true
  | [_] => true
  | a :: b :: t => (b < a) && strictDesc (b :: t)

/-- The `updated_at` stamps of the notes behind a search result list. -/
def resultUpdates (s : NoteStore) (res : List (Nat × Str)) : List Nat :=
  res.filterMap (fun p => (s.get p.1).map Note.updated_at)

/-- A filename character acceptable on common filesystems, as produced by
the export name pattern: alphanumeric, hyphen, underscore or dot. -/
def fsSafeChar (c : Char) : Bool := c.isAlphanum || c == '-' || c == '_' || c == '.'

/-- An empty store, as created on a fresh database file. -/
def emptyStore : NoteStore := { notes := [], next_id := 1 }

/-- Concrete store with two notes sharing one `updated_at` second
(obtained by two inserts within the same second). -/
def tieStore : NoteStore :=
  { notes :=
      [ { id := 1, title := lit "a", body := [], created_at := 5, updated_at := 5,
          import_hash := none }
      , { id := 2, title := lit "b", body := [], created_at := 5, updated_at := 5,
          import_hash := none } ]
    next_id := 3 }

/-- Concrete store with one note titled `abc`. -/
def abcStore : NoteStore :=
  { notes :=
      [ { id := 1, title := lit "abc", body := [], created_at := 0, updated_at := 0,
          import_hash := none } ]
    next_id := 2 }

/-- Concrete store holding a single note imported from a file with stem
`a` and content `b` (so `import_hash` is the digest of `a||b` under the
identity stand-in for SHA-256). -/
def importedStore : NoteStore :=
  { notes :=
      [ { id := 1, title := lit "a", body := lit "b", created_at := 0, updated_at := 0,
          import_hash := some (lit "a||b") } ]
    next_id := 2 }

/-- Concrete session state: editing note 1 of `importedStore` in `EDIT`
mode with unchanged editor content. -/
def editImported : AppState :=
  { store := importedStore
    mode := Mode.EDIT
    editing_note_id := some 1
    original_body := lit "b"
    editor_text := lit "b"
    input_value := []
    match_ids := [1]
    snips := [lit "a" ++ '\n' :: lit "b"]
    results_index := some 0
    marked := ∅ }

/-- Concrete session state: editing note 1 of `abcStore` in `EDIT` mode
with diverged editor content. -/
def editDirty : AppState :=
  { store := abcStore
    mode := Mode.EDIT
    editing_note_id := some 1
    original_body := []
    editor_text := lit "x"
    input_value := []
    match_ids := [1]
    snips := [lit "abc" ++ '\n' :: []]
    results_index := some 0
    marked := ∅ }

/-- The per-file accumulation loop of `NotryApp._do_import`: import each
selected file in order, summing the imported and skipped counts and
collecting the newly created note ids.  (The code stamps each file with
its own `datetime.now()`; the model passes one `now`, which no claim
depends on.) -/
def importFilesAux (h : Str → Str) (now : Nat) :
    List (Str × Str) → NoteStore → NoteStore × Nat × Nat × List Nat
  | [], s => (s, 0, 0, [])
  | f :: fs, s =>
    let r := s.import_text_file h now f.1 f.2
    let rest := importFilesAux h now fs r.1
    (rest.1, r.2.1 + rest.2.1, r.2.2.1 + rest.2.2.1,
      match r.2.2.2 with
      | none => rest.2.2.2
      | some nid => nid :: rest.2.2.2)

/-- Model of `NotryApp._do_import` after the file dialog returns: with no
selected files it only notifies; otherwise it imports every file, adds
each newly created note id to the marked set, clears the search input,
and refreshes the search with the empty query. -/
def AppState.do_import (a : AppState) (h : Str → Str) (now : Nat)
    (files : List (Str × Str)) : AppState × List Str :=
  if files.isEmpty then (a, [lit "Import cancelled"])
  else
    let r := importFilesAux h now files a.store
    let a1 := { a with
      store := r.1
      marked := r.2.2.2.foldl (fun m nid => insert nid m) a.marked
      input_value := ([] : Str) }
    (a1.refresh_search [],
      if 0 < r.2.2.1 then
        [lit "Imported " ++ natStr r.2.1 ++ lit " new (marked with ✓), skipped " ++
          natStr r.2.2.1 ++ lit " duplicates"]
      else [lit "Imported " ++ natStr r.2.1 ++ lit " notes (marked with ✓)"])

/-- Concrete store with one note whose title is the single non-ASCII
letter `É` (U+00C9). -/
def eAcuteStore : NoteStore :=
  { notes :=
      [ { id := 1, title := ['É'], body := [], created_at := 0, updated_at := 0,
          import_hash := none } ]
    next_id := 2 }

/-- Concrete store with one note whose title is the single non-ASCII
letter `é` (U+00E9), kept by Python `str.isalnum` in export slugs. -/
def eTitleStore : NoteStore :=
  { notes :=
      [ { id := 1, title := ['é'], body := [], created_at := 0, updated_at := 0,
          import_hash := none } ]
    next_id := 2 }

/-- Concrete session state: `SEARCH` mode over the empty store with an
empty marked set. -/
def searchApp : AppState :=
  { store := emptyStore
    mode := Mode.SEARCH
    editing_note_id := none
    original_body := []
    editor_text := []
    input_value := []
    match_ids := []
    snips := []
    results_index := none
    marked := ∅ }

/-! ### Character-level facts about ASCII case folding -/

theorem char_le_toNat {a b : Char} : a ≤ b ↔ a.toNat ≤ b.toNat := Iff.rfl

theorem char_toNat_ofNat (n : Nat) (hv : n.isValidChar) : (Char.ofNat n).toNat = n := by
  rw [Char.ofNat, dif_pos hv]
  rfl

theorem lowerChar_toNat (c : Char) :
    (('A' ≤ c ∧ c ≤ 'Z') ∧ (lowerChar c).toNat = c.toNat + 32) ∨
      (¬ ('A' ≤ c ∧ c ≤ 'Z') ∧ lowerChar c = c) := by
  by_cases h : 'A' ≤ c ∧ c ≤ 'Z'
  · left
    refine ⟨h, ?_⟩
    have h1 : c.toNat ≤ 90 := char_le_toNat.mp h.2
    have hv : (c.toNat + 32).isValidChar := Or.inl (by omega)
    rw [lowerChar, if_pos h]
    exact char_toNat_ofNat _ hv
  · right
    exact ⟨h, by rw [lowerChar, if_neg h]⟩

theorem lowerChar_idem (c : Char) : lowerChar (lowerChar c) = lowerChar c := by
  rcases lowerChar_toNat c with ⟨⟨h1, h2⟩, heq⟩ | ⟨h, heq⟩
  · have h90 : c.toNat ≤ 90 := char_le_toNat.mp h2
    have h65 : 65 ≤ c.toNat := char_le_toNat.mp h1
    rcases lowerChar_toNat (lowerChar c) with ⟨⟨h1', h2'⟩, _⟩ | ⟨_, heq'⟩
    · exfalso
      have hZ : ('Z' : Char).toNat = 90 := by decide
      have t2 := char_le_toNat.mp h2'
      rw [hZ] at t2
      omega
    · exact heq'
  · rw [heq, heq]

theorem lowerChar_ne_of_ne (c d : Char) (hd : d.toNat < 97 ∨ 122 < d.toNat)
    (h : c ≠ d) : lowerChar c ≠ d := by
  rcases lowerChar_toNat c with ⟨⟨h1, h2⟩, heq⟩ | ⟨_, heq⟩
  · intro hcon
    have h90 : c.toNat ≤ 90 := char_le_toNat.mp h2
    have h65 : 65 ≤ c.toNat := char_le_toNat.mp h1
    rw [hcon] at heq
    omega
  · rw [heq]
    exact h

theorem strLower_idem (t : Str) : strLower (strLower t) = strLower t := by
  simp only [strLower, List.map_map]
  exact List.map_congr_left (fun c _ => lowerChar_idem c)

theorem strLower_no_wildcard {q : Str} (hw : ∀ c ∈ q, c ≠ '%' ∧ c ≠ '_') :
    ∀ c ∈ strLower q, c ≠ '%' ∧ c ≠ '_' := by
  intro c hc
  obtain ⟨c0, hc0, rfl⟩ := List.mem_map.mp hc
  exact ⟨lowerChar_ne_of_ne c0 '%' (by decide) (hw c0 hc0).1,
         lowerChar_ne_of_ne c0 '_' (by decide) (hw c0 hc0).2⟩

theorem pyLowerChar_ascii {c : Char} (h : c.toNat < 128) : pyLowerChar c = lowerChar c := by
  unfold pyLowerChar lowerChar
  by_cases h1 : 'A' ≤ c ∧ c ≤ 'Z'
  · rw [if_pos h1, if_pos h1]
  · rw [if_neg h1, if_neg h1, if_neg (by intro hcon; omega)]

theorem strLowerPy_ascii {q : Str} (h : ∀ c ∈ q, c.toNat < 128) :
    strLowerPy q = strLower q :=
  List.map_congr_left (fun c hc => pyLowerChar_ascii (h c hc))

theorem pyIsAlnumLatin_ge {n : Nat} (h : pyIsAlnumLatin n = true) : 0xAA ≤ n := by
  simp only [pyIsAlnumLatin, Bool.or_eq_true, Bool.and_eq_true, decide_eq_true_eq] at h
  omega

theorem pyIsAlnumChar_ascii {c : Char} (h : c.toNat < 128)
    (hp : pyIsAlnumChar c = true) : c.isAlphanum = true := by
  have hp2 : c.isAlphanum = true ∨ pyIsAlnumLatin c.toNat = true := by
    simpa [pyIsAlnumChar, Bool.or_eq_true] using hp
  rcases hp2 with ha | hl
  · exact ha
  · exact absurd (pyIsAlnumLatin_ge hl) (by omega)

/-! ### `LIKE` pattern matching is literal substring search for
wildcard-free patterns -/

theorem likeMatch_nil (s : Str) : likeMatch [] s = s.isEmpty := rfl

theorem likeMatch_cons (pc : Char) (ps s : Str) :
    likeMatch (pc :: ps) s =
      if pc = '%' then likeMatchStar (likeMatch ps) s
      else
        match s with
        | [] => false
        | c :: s' =>
          if pc = '_' then likeMatch ps s' else likeCharMatch pc c && likeMatch ps s' := rfl

theorem likeMatchStar_eq_true (f : Str → Bool) (s : Str) :
    likeMatchStar f s = true ↔ ∃ t, t <:+ s ∧ f t = true := by
  induction s with
  | nil =>
    simp only [likeMatchStar]
    constructor
    · intro h
      exact ⟨[], List.suffix_rfl, h⟩
    · rintro ⟨t, hts, hft⟩
      rwa [List.suffix_nil.mp hts] at hft
  | cons c s ih =>
    simp only [likeMatchStar, Bool.or_eq_true, ih]
    constructor
    · rintro (h | ⟨t, hts, hft⟩)
      · exact ⟨c :: s, List.suffix_rfl, h⟩
      · exact ⟨t, hts.trans (List.suffix_cons c s), hft⟩
    · rintro ⟨t, hts, hft⟩
      rcases List.suffix_cons_iff.mp hts with rfl | hts'
      · exact Or.inl hft
      · exact Or.inr ⟨t, hts', hft⟩

theorem likeMatch_cons_nomatch {pc : Char} (hp : pc ≠ '%') (ps : Str) :
    likeMatch (pc :: ps) [] = false := by
  rw [likeMatch_cons, if_neg hp]

theorem likeMatch_cons_plain {pc : Char} (hp : pc ≠ '%') (hu : pc ≠ '_')
    (ps : Str) (c : Char) (s' : Str) :
    likeMatch (pc :: ps) (c :: s') = (likeCharMatch pc c && likeMatch ps s') := by
  rw [likeMatch_cons, if_neg hp]
  show (if pc = '_' then likeMatch ps s' else likeCharMatch pc c && likeMatch ps s') = _
  rw [if_neg hu]

theorem likeMatch_nowild : ∀ (q s : Str), (∀ c ∈ q, c ≠ '%' ∧ c ≠ '_') →
    (likeMatch q s = true ↔ strLower q = strLower s)
  | [], s, _ => by cases s <;> simp [likeMatch_nil, strLower]
  | pc :: ps, s, hw => by
    obtain ⟨hp, hu⟩ := hw pc (List.mem_cons_self pc ps)
    cases s with
    | nil => simp [likeMatch_cons_nomatch hp, strLower]
    | cons c s' =>
      have hrest : ∀ x ∈ ps, x ≠ '%' ∧ x ≠ '_' := fun x hx => hw x (List.mem_cons_of_mem pc hx)
      rw [likeMatch_cons_plain hp hu]
      simp only [Bool.and_eq_true, likeCharMatch, beq_iff_eq,
        likeMatch_nowild ps s' hrest, strLower, List.map_cons, List.cons.injEq]

theorem likeMatch_trailing : ∀ (q s : Str), (∀ c ∈ q, c ≠ '%' ∧ c ≠ '_') →
    (likeMatch (q ++ ['%']) s = true ↔ strLower q <+: strLower s)
  | [], s, _ => by
    rw [List.nil_append, likeMatch_cons, if_pos rfl]
    simp only [strLower, List.map_nil]
    constructor
    · intro _
      exact List.nil_prefix
    · intro _
      exact (likeMatchStar_eq_true _ s).mpr ⟨[], List.nil_suffix, rfl⟩
  | pc :: ps, s, hw => by
    obtain ⟨hp, hu⟩ := hw pc (List.mem_cons_self pc ps)
    rw [List.cons_append]
    cases s with
    | nil => simp [likeMatch_cons_nomatch hp, strLower]
    | cons c s' =>
      have hrest : ∀ x ∈ ps, x ≠ '%' ∧ x ≠ '_' := fun x hx => hw x (List.mem_cons_of_mem pc hx)
      rw [likeMatch_cons_plain hp hu]
      simp only [Bool.and_eq_true, likeCharMatch, beq_iff_eq,
        likeMatch_trailing ps s' hrest, strLower, List.map_cons, List.cons_prefix_cons]

theorem likeMatch_full_pattern (q s : Str) (hw : ∀ c ∈ q, c ≠ '%' ∧ c ≠ '_') :
    likeMatch ('%' :: (q ++ ['%'])) s = true ↔ strLower q <:+: strLower s := by
  rw [likeMatch_cons, if_pos rfl, likeMatchStar_eq_true]
  constructor
  · rintro ⟨t, hts, hmt⟩
    exact List.infix_iff_prefix_suffix.mpr
      ⟨strLower t, (likeMatch_trailing q t hw).mp hmt, hts.map lowerChar⟩
  · intro hinf
    obtain ⟨t', hpre, hsuf⟩ := List.infix_iff_prefix_suffix.mp hinf
    have hdrop : (strLower s).drop ((strLower s).length - t'.length) = t' :=
      (List.suffix_iff_eq_drop.mp hsuf).symm
    refine ⟨s.drop ((strLower s).length - t'.length),
      List.drop_suffix _ s, (likeMatch_trailing q _ hw).mpr ?_⟩
    have hmapdrop : strLower (s.drop ((strLower s).length - t'.length)) =
        (strLower s).drop ((strLower s).length - t'.length) := by
      simp [strLower, List.map_drop]
    rw [hmapdrop, hdrop]
    exact hpre

theorem matchesQuery_eq_true (text : Str) (n : Note)
    (hw : ∀ c ∈ text, c ≠ '%' ∧ c ≠ '_')
    (hascii : ∀ c ∈ text, c.toNat < 128) :
    matchesQuery text n = true ↔
      (strLower text <:+: strLower n.title ∨ strLower text <:+: strLower n.body) := by
  have hw' := strLower_no_wildcard hw
  unfold matchesQuery
  rw [strLowerPy_ascii hascii, Bool.or_eq_true,
    likeMatch_full_pattern _ _ hw', likeMatch_full_pattern _ _ hw',
    strLower_idem, strLower_idem, strLower_idem]

/-! ### Decimal rendering of ids -/

theorem digitVal_digitChar : ∀ d, d < 10 → digitVal (digitChar d) = d := by decide

theorem digitChar_facts : ∀ d, d < 10 →
    (digitChar d).isAlphanum = true ∧ digitChar d ≠ '-' ∧ digitChar d ≠ ' ' ∧
      fsSafeChar (digitChar d) = true := by decide

theorem strVal_snoc (l : Str) (c : Char) :
    strVal (l ++ [c]) = strVal l * 10 + digitVal c := by
  simp [strVal, List.foldl_append]

theorem natStrAux_val : ∀ fuel n, n < fuel → strVal (natStrAux fuel n) = n := by
  intro fuel
  induction fuel with
  | zero => intro n hn; omega
  | succ f ih =>
    intro n hn
    by_cases h10 : n < 10
    · simp [natStrAux, h10, strVal, digitVal_digitChar n h10]
    · have hpos : 0 < n := by omega
      have hdiv : n / 10 < f := by
        have h1 : n / 10 < n := Nat.div_lt_self hpos (by omega)
        omega
      rw [natStrAux, if_neg h10, strVal_snoc, ih _ hdiv,
        digitVal_digitChar _ (Nat.mod_lt _ (by omega))]
      omega

theorem strVal_natStr (n : Nat) : strVal (natStr n) = n :=
  natStrAux_val (n + 1) n (Nat.lt_succ_self n)

theorem natStr_inj {a b : Nat} (h : natStr a = natStr b) : a = b := by
  have h2 := congrArg strVal h
  rwa [strVal_natStr, strVal_natStr] at h2

theorem natStrAux_digits : ∀ fuel n c, c ∈ natStrAux fuel n → ∃ d, d < 10 ∧ c = digitChar d := by
  intro fuel
  induction fuel with
  | zero => intro n c hc; simp [natStrAux] at hc
  | succ f ih =>
    intro n c hc
    by_cases h10 : n < 10
    · rw [natStrAux, if_pos h10] at hc
      simp at hc
      exact ⟨n, h10, hc⟩
    · rw [natStrAux, if_neg h10] at hc
      rcases List.mem_append.mp hc with hl | hr
      · exact ih _ _ hl
      · simp at hr
        exact ⟨n % 10, Nat.mod_lt _ (by omega), hr⟩

theorem natStr_digit {c : Char} {n : Nat} (hc : c ∈ natStr n) :
    ∃ d, d < 10 ∧ c = digitChar d :=
  natStrAux_digits (n + 1) n c hc

/-! ### Splitting at a delimiter is injective -/

theorem append_delim_inj : ∀ (a1 a2 b1 b2 : Str) (d : Char), d ∉ a1 → d ∉ a2 →
    a1 ++ d :: b1 = a2 ++ d :: b2 → a1 = a2 ∧ b1 = b2
  | [], [], b1, b2, d, _, _, h => by simpa using h
  | [], x :: a2, b1, b2, d, h1, h2, h => by
    exfalso
    simp only [List.nil_append, List.cons_append, List.cons.injEq] at h
    exact h2 (h.1 ▸ List.mem_cons_self x a2)
  | x :: a1, [], b1, b2, d, h1, h2, h => by
    exfalso
    simp only [List.nil_append, List.cons_append, List.cons.injEq] at h
    exact h1 (h.1.symm ▸ List.mem_cons_self x a1)
  | x :: a1, y :: a2, b1, b2, d, h1, h2, h => by
    simp only [List.cons_append, List.cons.injEq] at h
    have hrec := append_delim_inj a1 a2 b1 b2 d
      (fun hm => h1 (List.mem_cons_of_mem x hm))
      (fun hm => h2 (List.mem_cons_of_mem y hm)) h.2
    exact ⟨by rw [h.1, hrec.1], hrec.2⟩

/-! ### Export file names: shape, safety, injectivity -/

theorem mem_pyStrip {c : Char} {l : Str} (h : c ∈ pyStrip l) : c ∈ l := by
  unfold pyStrip at h
  rw [List.mem_reverse] at h
  have h1 := (List.dropWhile_suffix _).subset h
  rw [List.mem_reverse] at h1
  exact (List.dropWhile_suffix _).subset h1

theorem slug_safe {nid : Nat} {title : Str} {c : Char}
    (hascii : ∀ x ∈ title, x.toNat < 128) (hc : c ∈ slug nid title) :
    c.isAlphanum = true ∨ c = '-' ∨ c = '_' := by
  unfold slug at hc
  obtain ⟨c0, hc0, rfl⟩ := List.mem_map.mp hc
  by_cases hsp : c0 = ' '
  · rw [if_pos hsp]
    exact Or.inr (Or.inl rfl)
  · rw [if_neg hsp]
    by_cases hif : (pyStrip (title.filter slugKeep)).take 50 = []
    · rw [if_pos hif] at hc0
      rcases List.mem_append.mp hc0 with hl | hr
      · have hlit : c0 = 'n' ∨ c0 = 'o' ∨ c0 = 't' ∨ c0 = 'e' ∨ c0 = '-' := by
          simpa [lit] using hl
        rcases hlit with rfl | rfl | rfl | rfl | rfl <;> simp
      · obtain ⟨d, hd, rfl⟩ := natStr_digit hr
        exact Or.inl (digitChar_facts d hd).1
    · rw [if_neg hif] at hc0
      have hmem : c0 ∈ title.filter slugKeep :=
        mem_pyStrip ((List.take_subset _ _) hc0)
      have hkeep : slugKeep c0 = true := (List.mem_filter.mp hmem).2
      have h128 : c0.toNat < 128 := hascii c0 (List.mem_filter.mp hmem).1
      have hsplit : ((pyIsAlnumChar c0 = true ∨ c0 = ' ') ∨ c0 = '-') ∨ c0 = '_' := by
        simpa [slugKeep, Bool.or_eq_true, beq_iff_eq] using hkeep
      rcases hsplit with ((ha | rfl) | rfl) | rfl
      · exact Or.inl (pyIsAlnumChar_ascii h128 ha)
      · exact absurd rfl hsp
      · exact Or.inr (Or.inl rfl)
      · exact Or.inr (Or.inr rfl)

theorem fileName_safe {nid : Nat} {title : Str} {c : Char}
    (hascii : ∀ x ∈ title, x.toNat < 128) (hc : c ∈ fileName nid title) :
    fsSafeChar c = true := by
  unfold fileName at hc
  rcases List.mem_append.mp hc with hl | hr
  · have hlit : c = 'n' ∨ c = 'o' ∨ c = 't' ∨ c = 'e' ∨ c = '-' := by
      simpa [lit] using hl
    rcases hlit with rfl | rfl | rfl | rfl | rfl <;> decide
  · rcases List.mem_append.mp hr with hd | htail
    · obtain ⟨d, hd10, rfl⟩ := natStr_digit hd
      exact (digitChar_facts d hd10).2.2.2
    · rcases List.mem_cons.mp htail with rfl | hrest
      · decide
      · rcases List.mem_append.mp hrest with hs | hmd
        · rcases slug_safe hascii hs with ha | rfl | rfl
          · simp [fsSafeChar, ha]
          · decide
          · decide
        · have hlit2 : c = '.' ∨ c = 'm' ∨ c = 'd' := by
            simpa [lit] using hmd
          rcases hlit2 with rfl | rfl | rfl <;> decide

theorem natStr_no_dash (n : Nat) : '-' ∉ natStr n := by
  intro hc
  obtain ⟨d, hd, hEq⟩ := natStr_digit hc
  exact (digitChar_facts d hd).2.1 hEq.symm

theorem fileName_ne {n1 n2 : Nat} (t1 t2 : Str) (h : n1 ≠ n2) :
    fileName n1 t1 ≠ fileName n2 t2 := by
  intro heq
  unfold fileName at heq
  have h2 := List.append_cancel_left heq
  exact h (natStr_inj (append_delim_inj _ _ _ _ '-'
    (natStr_no_dash n1) (natStr_no_dash n2) h2).1)

/-! ### Store-level helper lemmas -/

theorem get_some_id {s : NoteStore} {nid : Nat} {n : Note} (h : s.get nid = some n) :
    n.id = nid := by
  have h2 := List.find?_some h
  simpa using h2

theorem get_some_mem {s : NoteStore} {nid : Nat} {n : Note} (h : s.get nid = some n) :
    n ∈ s.notes :=
  List.mem_of_find?_eq_some h

theorem sortedNotes_sorted (s : NoteStore) : List.Sorted updGe s.sortedNotes :=
  List.sorted_insertionSort updGe s.notes

theorem sortedNotes_perm (s : NoteStore) : s.sortedNotes.Perm s.notes :=
  List.perm_insertionSort updGe s.notes

theorem mem_sortedNotes {s : NoteStore} {n : Note} : n ∈ s.sortedNotes ↔ n ∈ s.notes :=
  (sortedNotes_perm s).mem_iff

theorem sortedNotes_length (s : NoteStore) : s.sortedNotes.length = s.count :=
  (sortedNotes_perm s).length_eq

theorem searchRows_sorted (s : NoteStore) (text : Str) (limit : Nat) :
    List.Sorted updGe (s.searchRows text limit) := by
  unfold NoteStore.searchRows
  split
  · exact (sortedNotes_sorted s).sublist (List.take_sublist _ _)
  · exact (sortedNotes_sorted s).sublist
      ((List.take_sublist _ _).trans (List.filter_sublist _))

theorem search_eq_map (s : NoteStore) (text : Str) (limit : Nat) :
    s.search text limit = (s.searchRows text limit).map (fun n => (n.id, snippet n)) := rfl

theorem search_length_le (s : NoteStore) (text : Str) (limit : Nat) :
    (s.search text limit).length ≤ limit := by
  rw [search_eq_map, List.length_map]
  unfold NoteStore.searchRows
  rw [List.length_take]
  exact min_le_left _ _

/-! ### Dedup hash (claim C2) -/

/-- C2 (counterexample): the claim "for every two distinct pairs
`(t1, b1) ≠ (t2, b2)` the digests differ" is false with certainty, not
merely with collision probability: the delimiter `||` of `_compute_hash`
can be produced by the title, so `("a||b", "c")` and `("a", "b||c")` feed
the very same string to SHA-256. -/
theorem dedup_hash_collision :
    hashInput (lit "a||b") (lit "c") = hashInput (lit "a") (lit "b||c") ∧
      (lit "a||b", lit "c") ≠ (lit "a", lit "b||c") := by decide

/-- C2 (amended): `compute_dedup_hash` is a pure function of
`(title, body)` (determinism is immediate since it is a function of its
arguments), and on pairs whose titles contain no `'|'` the pre-hash
encodings of distinct pairs differ, so any injective digest function
separates them; titles containing `'|'` can collide with certainty
(`dedup_hash_collision`). -/
theorem dedup_hash_pipe_free_inj (hf : Str → Str) (hinj : Function.Injective hf)
    (t1 b1 t2 b2 : Str) (hp1 : '|' ∉ t1) (hp2 : '|' ∉ t2)
    (hne : (t1, b1) ≠ (t2, b2)) :
    compute_hash hf t1 b1 ≠ compute_hash hf t2 b2 := by
  intro heq
  have hhi : hashInput t1 b1 = hashInput t2 b2 := hinj heq
  unfold hashInput at hhi
  have hsplit := append_delim_inj t1 t2 ('|' :: b1) ('|' :: b2) '|' hp1 hp2 hhi
  have hb : b1 = b2 := by
    have h2 := hsplit.2
    simpa using h2
  exact hne (by rw [hsplit.1, hb])

/-- C2 (witness): the amended theorem applied at the identity digest,
titles `a` and `b`, bodies `x`. -/
theorem dedup_hash_pipe_free_inj_witness :
    compute_hash (fun x => x) (lit "a") (lit "x") ≠
      compute_hash (fun x => x) (lit "b") (lit "x") :=
  dedup_hash_pipe_free_inj (fun x => x) (fun _ _ hh => hh)
    (lit "a") (lit "x") (lit "b") (lit "x") (by decide) (by decide) (by decide)

/-! ### Upsert (claims C6 and C8) -/

/-- C6: `upsert` with an id that matches no row is a silent no-op: the
SQL `UPDATE` rewrites nothing, the call does not fail, and the passed id
is returned unchanged (so the store, its count, and every note are
untouched). -/
theorem upsert_unknown_id_noop (s : NoteStore) (now : Nat) (t b : Str)
    (ih : Option Str) (nid : Nat) (hnone : ∀ n ∈ s.notes, n.id ≠ nid) :
    s.upsert now t b (some nid) ih = (s, nid) := by
  have hmap : s.notes.map (fun m =>
      if m.id = nid then
        { m with title := t, body := b, updated_at := now, import_hash := ih }
      else m) = s.notes := by
    conv_rhs => rw [← List.map_id s.notes]
    exact List.map_congr_left (fun m hm => by rw [if_neg (hnone m hm)]; rfl)
  simp only [NoteStore.upsert, hmap]

/-- C6 (witness): updating id 5 in the empty store returns `(store, 5)`
with the store unchanged. -/
theorem upsert_unknown_id_noop_witness :
    emptyStore.upsert 0 [] [] (some 5) none = (emptyStore, 5) :=
  upsert_unknown_id_noop emptyStore 0 [] [] none 5 (by decide)

/-- C8: `upsert` with no id inserts exactly one new row, returns an id
no existing note holds, and stamps `created_at = updated_at = now`
(given the `AUTOINCREMENT` invariant that every stored id is below the
counter). -/
theorem upsert_insert_fresh (s : NoteStore) (now : Nat) (t b : Str) (ih : Option Str)
    (hinv : ∀ n ∈ s.notes, n.id < s.next_id) :
    (s.upsert now t b none ih).1.count = s.count + 1
    ∧ (∀ n ∈ s.notes, n.id ≠ (s.upsert now t b none ih).2)
    ∧ (s.upsert now t b none ih).1.get (s.upsert now t b none ih).2 =
        some { id := s.next_id, title := t, body := b, created_at := now,
               updated_at := now, import_hash := ih } := by
  refine ⟨?_, ?_, ?_⟩
  · simp [NoteStore.upsert, NoteStore.count]
  · intro n hn
    simp only [NoteStore.upsert]
    exact Nat.ne_of_lt (hinv n hn)
  · simp only [NoteStore.upsert, NoteStore.get]
    rw [List.find?_append]
    have hnone : s.notes.find? (fun n => n.id == s.next_id) = none :=
      List.find?_eq_none.mpr (fun n hn => by simpa using Nat.ne_of_lt (hinv n hn))
    rw [hnone]
    simp

/-- C8 (witness): the insert theorem applied to the one-note store. -/
theorem upsert_insert_fresh_witness :
    (abcStore.upsert 7 (lit "t") [] none none).1.count = abcStore.count + 1
    ∧ (∀ n ∈ abcStore.notes, n.id ≠ (abcStore.upsert 7 (lit "t") [] none none).2)
    ∧ (abcStore.upsert 7 (lit "t") [] none none).1.get
          (abcStore.upsert 7 (lit "t") [] none none).2 =
        some { id := abcStore.next_id, title := lit "t", body := [], created_at := 7,
               updated_at := 7, import_hash := none } :=
  upsert_insert_fresh abcStore 7 (lit "t") [] none (by decide)

/-! ### Import dedup (claim C5) -/

theorem note_exists_after_insert (s : NoteStore) (now : Nat) (title content d : Str) :
    (s.upsert now title content none (some d)).1.note_exists_by_hash d = true := by
  simp [NoteStore.upsert, NoteStore.note_exists_by_hash]

theorem import_dup_skips (s : NoteStore) (hf : Str → Str) (now : Nat)
    (stem content : Str)
    (hex : s.note_exists_by_hash (compute_hash hf (importTitle stem) content) = true) :
    s.import_text_file hf now stem content = (s, (0, 1, none)) := by
  simp [NoteStore.import_text_file, hex]

theorem import_new_inserts (s : NoteStore) (hf : Str → Str) (now : Nat)
    (stem content : Str)
    (hnew : s.note_exists_by_hash (compute_hash hf (importTitle stem) content) = false) :
    (s.import_text_file hf now stem content).1 =
      (s.upsert now (importTitle stem) content none
        (some (compute_hash hf (importTitle stem) content))).1
    ∧ (s.import_text_file hf now stem content).2 = (1, 0, some s.next_id) := by
  simp [NoteStore.import_text_file, hnew, NoteStore.upsert]

/-- C5: importing a file whose digest is not in the store returns
`(1, 0, new id)` and adds one note; importing the identical file again
returns `(0, 1, none)` and leaves the store untouched, so the count
rises by exactly 1 in total. -/
theorem import_twice_dedup (s : NoteStore) (hf : Str → Str) (now1 now2 : Nat)
    (stem content : Str)
    (hnew : s.note_exists_by_hash (compute_hash hf (importTitle stem) content) = false) :
    (s.import_text_file hf now1 stem content).2 = (1, 0, some s.next_id)
    ∧ (s.import_text_file hf now1 stem content).1.count = s.count + 1
    ∧ ((s.import_text_file hf now1 stem content).1.import_text_file hf now2 stem content).2 =
        (0, 1, none)
    ∧ ((s.import_text_file hf now1 stem content).1.import_text_file hf now2 stem content).1 =
        (s.import_text_file hf now1 stem content).1 := by
  obtain ⟨hst, hres⟩ := import_new_inserts s hf now1 stem content hnew
  have hexists : (s.import_text_file hf now1 stem content).1.note_exists_by_hash
      (compute_hash hf (importTitle stem) content) = true := by
    rw [hst]
    exact note_exists_after_insert s now1 (importTitle stem) content _
  have hskip := import_dup_skips (s.import_text_file hf now1 stem content).1 hf now2
    stem content hexists
  refine ⟨hres, ?_, by rw [hskip], by rw [hskip]⟩
  rw [hst]
  simp [NoteStore.upsert, NoteStore.count]

/-- C5 (witness): importing the file `a` with content `b` twice into the
empty store (identity digest stand-in). -/
theorem import_twice_dedup_witness :
    (emptyStore.import_text_file (fun x => x) 3 (lit "a") (lit "b")).2 =
        (1, 0, some emptyStore.next_id)
    ∧ (emptyStore.import_text_file (fun x => x) 3 (lit "a") (lit "b")).1.count =
        emptyStore.count + 1
    ∧ ((emptyStore.import_text_file (fun x => x) 3 (lit "a") (lit "b")).1.import_text_file
          (fun x => x) 4 (lit "a") (lit "b")).2 = (0, 1, none)
    ∧ ((emptyStore.import_text_file (fun x => x) 3 (lit "a") (lit "b")).1.import_text_file
          (fun x => x) 4 (lit "a") (lit "b")).1 =
        (emptyStore.import_text_file (fun x => x) 3 (lit "a") (lit "b")).1 :=
  import_twice_dedup emptyStore (fun x => x) 3 4 (lit "a") (lit "b") (by decide)

/-! ### Blank-query search (claim C3) -/

/-- C3 (counterexample): with two notes updated within the same second,
the blank-query search returns both, and the returned order is not
strictly descending in `updated_at` — strictness fails on the tie. -/
theorem search_blank_tie_not_strict :
    (tieStore.search [] 10).length = 2 ∧
      strictDesc (resultUpdates tieStore (tieStore.search [] 10)) = false := by decide

/-- C3 (amended): a blank (empty or whitespace-only) query returns the
`limit` most recently updated notes: the result has length
`min limit count`, its rows are ordered by `updated_at` non-increasing
(ties in unspecified relative order), and every note left out is no newer
than any note returned. -/
theorem search_blank_recency (s : NoteStore) (text : Str) (limit : Nat)
    (hb : isBlank text = true) :
    (s.search text limit).length = min limit s.count
    ∧ List.Sorted updGe (s.searchRows text limit)
    ∧ (∀ n ∈ s.notes, n ∉ s.searchRows text limit →
        ∀ m ∈ s.searchRows text limit, n.updated_at ≤ m.updated_at)
    ∧ s.search text limit = (s.searchRows text limit).map (fun n => (n.id, snippet n)) := by
  have hrows : s.searchRows text limit = s.sortedNotes.take limit := by
    unfold NoteStore.searchRows
    rw [if_pos hb]
  refine ⟨?_, searchRows_sorted s text limit, ?_, rfl⟩
  · rw [search_eq_map, List.length_map, hrows, List.length_take, sortedNotes_length]
  · intro n hn hnin m hm
    rw [hrows] at hnin hm
    have hsorted : List.Pairwise updGe (s.sortedNotes.take limit ++ s.sortedNotes.drop limit) := by
      rw [List.take_append_drop]
      exact sortedNotes_sorted s
    have hmem : n ∈ s.sortedNotes.take limit ++ s.sortedNotes.drop limit := by
      rw [List.take_append_drop]
      exact mem_sortedNotes.mpr hn
    rcases List.mem_append.mp hmem with hcon | hdrop
    · exact absurd hcon hnin
    · exact (List.pairwise_append.mp hsorted).2.2 m hm n hdrop

/-- C3 (witness): the amended theorem applied to `abcStore` with a
whitespace query and limit 5. -/
theorem search_blank_recency_witness :
    (abcStore.search [' '] 5).length = min 5 abcStore.count
    ∧ List.Sorted updGe (abcStore.searchRows [' '] 5)
    ∧ (∀ n ∈ abcStore.notes, n ∉ abcStore.searchRows [' '] 5 →
        ∀ m ∈ abcStore.searchRows [' '] 5, n.updated_at ≤ m.updated_at)
    ∧ abcStore.search [' '] 5 =
        (abcStore.searchRows [' '] 5).map (fun n => (n.id, snippet n)) :=
  search_blank_recency abcStore [' '] 5 (by decide)

/-! ### Substring search (claim C4) -/

/-- C4 (counterexample): two ways the claim fails as stated.  (1) The
query is pasted into the SQL `LIKE` pattern, so `_` and `%` act as
wildcards: query `a_c` returns the note titled `abc` although `a_c` is
not a literal substring of its title or body.  (2) Case-insensitivity
breaks outside ASCII: Python lowers the query `É` to `é` (Unicode
`str.lower`), but SQLite `lower()` and `LIKE` fold ASCII only, so the
query `É` returns nothing even though it is literally (hence
case-insensitively) a substring of the note's title `É`. -/
theorem search_literal_substring_failures :
    ((abcStore.search (lit "a_c") 10).length = 1 ∧
      ¬ (strLower (lit "a_c") <:+: strLower (lit "abc") ∨
          strLower (lit "a_c") <:+: strLower ([] : Str)))
    ∧ (eAcuteStore.search ['É'] 10 = [] ∧
      strLower ['É'] <:+: strLower (['É'] : Str)) := by decide

/-- C4 (amended): for a non-blank ASCII query containing neither `LIKE`
wildcard (`%`, `_`), search returns exactly the notes whose lower-cased
title or body contains the lower-cased query as a literal substring
(lower-casing is the ASCII fold, which on such queries is what both
Python and SQLite apply; the notes are unrestricted, since the column
side is folded by SQLite alone):
every returned pair is the id and `title ++ "\n" ++ body` snippet of a
matching stored note; when the result is shorter than `limit` every
matching note is returned; rows are ordered by `updated_at`
non-increasing; and the length never exceeds `limit`.  Queries that
contain `%` or `_` are interpreted as wildcard patterns instead, and
non-ASCII queries lose case-insensitivity because Python lowers them
while SQLite folds ASCII only (`search_literal_substring_failures`). -/
theorem search_substring_semantics (s : NoteStore) (q : Str) (limit : Nat)
    (hnb : isBlank q = false)
    (hw : ∀ c ∈ q, c ≠ '%' ∧ c ≠ '_')
    (hascii : ∀ c ∈ q, c.toNat < 128) :
    (∀ p ∈ s.search q limit, ∃ n, n ∈ s.notes ∧ p = (n.id, n.title ++ '\n' :: n.body) ∧
        (strLower q <:+: strLower n.title ∨ strLower q <:+: strLower n.body))
    ∧ ((s.search q limit).length < limit →
        ∀ n ∈ s.notes, (strLower q <:+: strLower n.title ∨ strLower q <:+: strLower n.body) →
          (n.id, snippet n) ∈ s.search q limit)
    ∧ List.Sorted updGe (s.searchRows q limit)
    ∧ (s.search q limit).length ≤ limit := by
  have hrows : s.searchRows q limit = (s.sortedNotes.filter (matchesQuery q)).take limit := by
    unfold NoteStore.searchRows
    rw [if_neg (by simp [hnb])]
  refine ⟨?_, ?_, searchRows_sorted s q limit, search_length_le s q limit⟩
  · intro p hp
    rw [search_eq_map] at hp
    obtain ⟨n, hn, rfl⟩ := List.mem_map.mp hp
    rw [hrows] at hn
    have hnf : n ∈ s.sortedNotes.filter (matchesQuery q) := (List.take_subset _ _) hn
    obtain ⟨hns, hmq⟩ := List.mem_filter.mp hnf
    exact ⟨n, mem_sortedNotes.mp hns, rfl, (matchesQuery_eq_true q n hw hascii).mp hmq⟩
  · intro hlen n hn hsub
    rw [search_eq_map, List.length_map, hrows, List.length_take] at hlen
    have hflt : (s.sortedNotes.filter (matchesQuery q)).length < limit := by omega
    have htake : (s.sortedNotes.filter (matchesQuery q)).take limit =
        s.sortedNotes.filter (matchesQuery q) :=
      List.take_of_length_le (le_of_lt hflt)
    rw [search_eq_map, hrows, htake]
    exact List.mem_map_of_mem _ (List.mem_filter.mpr
      ⟨mem_sortedNotes.mpr hn, (matchesQuery_eq_true q n hw hascii).mpr hsub⟩)

/-- C4 (witness): the amended theorem applied to `abcStore` with the
upper-cased query `B`, which matches the title `abc` case-insensitively. -/
theorem search_substring_semantics_witness :
    (∀ p ∈ abcStore.search (lit "B") 10, ∃ n, n ∈ abcStore.notes ∧
        p = (n.id, n.title ++ '\n' :: n.body) ∧
        (strLower (lit "B") <:+: strLower n.title ∨ strLower (lit "B") <:+: strLower n.body))
    ∧ ((abcStore.search (lit "B") 10).length < 10 →
        ∀ n ∈ abcStore.notes,
          (strLower (lit "B") <:+: strLower n.title ∨ strLower (lit "B") <:+: strLower n.body) →
          (n.id, snippet n) ∈ abcStore.search (lit "B") 10)
    ∧ List.Sorted updGe (abcStore.searchRows (lit "B") 10)
    ∧ (abcStore.search (lit "B") 10).length ≤ 10 :=
  search_substring_semantics abcStore (lit "B") 10 (by decide) (by decide) (by decide)

/-! ### Export (claim C1) -/

/-- C1 (counterexample): three ways the claim fails as stated.  (1) An
explicitly passed empty id list does not write zero files: Python
truthiness sends `[]` to the export-everything branch, so every stored
note (here 1) is exported while `|[] ∩ existing|` is 0.  (2) A
duplicated id is written and counted once per occurrence: `[1, 1]`
returns 2 although `|{1, 1} ∩ existing|` is 1, and the two writes share
one filename, so only one file results — not "exactly one file per id".
(3) A title character kept by Python's Unicode `str.isalnum`, such as
`é`, flows into the filename: the program writes `note-1-é.md`, whose
`é` is outside the ASCII filesystem-safe alphabet. -/
theorem export_ids_claim_failures :
    ((abcStore.export_separate_files (some [])).2 = 1 ∧
      (([] : List Nat).filter (fun nid => (abcStore.get nid).isSome)).length = 0)
    ∧ ((abcStore.export_separate_files (some [1, 1])).2 = 2 ∧
      (([1, 1] : List Nat).dedup.filter (fun nid => (abcStore.get nid).isSome)).length = 1 ∧
      ((abcStore.export_separate_files (some [1, 1])).1.map Prod.fst).dedup.length = 1)
    ∧ ((eTitleStore.export_separate_files (some [1])).1.map Prod.fst = [lit "note-1-é.md"] ∧
      ¬ (∀ c ∈ lit "note-1-é.md", fsSafeChar c = true)) := by decide

/-- C1 (amended): for every *non-empty*, *duplicate-free* id list whose
resolving notes have ASCII titles, export writes one file per id that
resolves to an existing note and returns that number
(`|ids ∩ existing|`); each write is named `note-<id>-<slug>.md` via
`fileName`, every filename character is filesystem-safe, and the
filenames are pairwise distinct.  Ids that do not resolve are silently
skipped and not counted.  Each restriction is forced by
`export_ids_claim_failures`: an empty list exports the whole store,
duplicated ids are counted per occurrence while overwriting one file,
and non-ASCII title characters kept by Python `str.isalnum` enter the
filename. -/
theorem export_ids_count (s : NoteStore) (ids : List Nat) (hne : ids ≠ [])
    (hnd : ids.Nodup)
    (hascii : ∀ nid ∈ ids, ∀ c ∈ ((s.get nid).map Note.title).getD [], c.toNat < 128) :
    (s.export_separate_files (some ids)).2 =
        (ids.filter (fun nid => (s.get nid).isSome)).length
    ∧ (s.export_separate_files (some ids)).1.length = (s.export_separate_files (some ids)).2
    ∧ (∀ w ∈ (s.export_separate_files (some ids)).1,
        ∃ nid, nid ∈ ids ∧ ∃ n, s.get nid = some n ∧
          w = (fileName nid n.title, fileContent n))
    ∧ (∀ w ∈ (s.export_separate_files (some ids)).1, ∀ c ∈ w.1, fsSafeChar c = true)
    ∧ List.Pairwise (fun w1 w2 : Str × Str => w1.1 ≠ w2.1)
        (s.export_separate_files (some ids)).1 := by
  obtain ⟨nid0, rest, rfl⟩ := List.exists_cons_of_ne_nil hne
  have hrows : s.export_separate_files (some (nid0 :: rest)) =
      (((nid0 :: rest).filterMap s.get).map (fun n => (fileName n.id n.title, fileContent n)),
        ((nid0 :: rest).filterMap s.get).length) := by
    have hfm : ((nid0 :: rest).map s.get).filterMap id = (nid0 :: rest).filterMap s.get := by
      rw [List.filterMap_map, Function.id_comp]
    simp only [NoteStore.export_separate_files, hfm]
  have hpair : List.Pairwise (fun n m : Note => n.id ≠ m.id)
      ((nid0 :: rest).filterMap s.get) := by
    refine List.Pairwise.filterMap s.get ?_ hnd
    intro a a' hne' b hb b' hb'
    have hbid := get_some_id (Option.mem_def.mp hb)
    have hbid' := get_some_id (Option.mem_def.mp hb')
    rw [hbid, hbid']
    exact hne'
  refine ⟨?_, ?_, ?_, ?_, ?_⟩
  · rw [hrows]
    show ((nid0 :: rest).filterMap s.get).length = _
    rw [List.length_filterMap_eq_countP, List.countP_eq_length_filter]
  · rw [hrows]
    simp
  · rw [hrows]
    intro w hw
    obtain ⟨n, hnmem, rfl⟩ := List.mem_map.mp hw
    obtain ⟨nid, hnid, hget⟩ := List.mem_filterMap.mp hnmem
    have hid := get_some_id hget
    exact ⟨nid, hnid, n, hget, by rw [hid]⟩
  · rw [hrows]
    intro w hw
    obtain ⟨n, hnmem, rfl⟩ := List.mem_map.mp hw
    obtain ⟨nid, hnid, hget⟩ := List.mem_filterMap.mp hnmem
    have htitle : ∀ x ∈ n.title, x.toNat < 128 := by
      have h2 := hascii nid hnid
      rw [hget] at h2
      simpa using h2
    intro c hc
    exact fileName_safe htitle hc
  · rw [hrows]
    show List.Pairwise _ (List.map _ _)
    refine List.Pairwise.map _ ?_ hpair
    intro a b hab
    exact fileName_ne a.title b.title hab

/-- C1 (witness): exporting ids `[1, 5]` from the two-note store: id 1
resolves, id 5 does not, one file is written. -/
theorem export_ids_count_witness :
    (tieStore.export_separate_files (some [1, 5])).2 =
        (([1, 5] : List Nat).filter (fun nid => (tieStore.get nid).isSome)).length
    ∧ (tieStore.export_separate_files (some [1, 5])).1.length =
        (tieStore.export_separate_files (some [1, 5])).2
    ∧ (∀ w ∈ (tieStore.export_separate_files (some [1, 5])).1,
        ∃ nid, nid ∈ ([1, 5] : List Nat) ∧ ∃ n, tieStore.get nid = some n ∧
          w = (fileName nid n.title, fileContent n))
    ∧ (∀ w ∈ (tieStore.export_separate_files (some [1, 5])).1,
        ∀ c ∈ w.1, fsSafeChar c = true)
    ∧ List.Pairwise (fun w1 w2 : Str × Str => w1.1 ≠ w2.1)
        (tieStore.export_separate_files (some [1, 5])).1 :=
  export_ids_count tieStore [1, 5] (by decide) (by decide) (by decide)

/-! ### Escape guard in EDIT mode (claim C7) -/

/-- C7: in `EDIT` mode, escape with editor content different from the
`original_body` baseline refuses the transition — the whole session
state (store included) is unchanged and the unsaved-changes warning is
surfaced; with content equal to the baseline the transition to `SEARCH`
succeeds and the store is untouched, so content is never silently
discarded on escape. -/
theorem edit_back_guard (a : AppState) (hmode : a.mode = Mode.EDIT) :
    (a.editor_text ≠ a.original_body →
      (a.action_mode_back).1 = a ∧ (a.action_mode_back).2 = [unsavedWarning])
    ∧ (a.editor_text = a.original_body →
      (a.action_mode_back).1.mode = Mode.SEARCH
      ∧ (a.action_mode_back).1.store = a.store
      ∧ (a.action_mode_back).2 = []) := by
  constructor
  · intro hne
    simp [AppState.action_mode_back, hmode, hne]
  · intro heq
    simp [AppState.action_mode_back, hmode, heq, AppState.refresh_search]

/-- C7 (witness): the guard applied to `editDirty`, whose editor text
diverges from its baseline: the transition is refused. -/
theorem edit_back_guard_witness :
    (editDirty.action_mode_back).1 = editDirty ∧
      (editDirty.action_mode_back).2 = [unsavedWarning] :=
  (edit_back_guard editDirty rfl).1 (by decide)

/-! ### Marked-set stability (claim C9) -/

/-- C9 (counterexample): marked-set membership does not change only
through the explicit mark operations: `_do_import` adds every newly
imported note id to the marked set, so importing a file into a session
with an empty marked set leaves it non-empty. -/
theorem import_adds_marks :
    (searchApp.do_import (fun x => x) 0 [(lit "a", lit "b")]).1.marked ≠
      searchApp.marked := by decide

theorem mem_foldl_insert : ∀ (l : List Nat) (m : Finset Nat) (x : Nat),
    (x ∈ l.foldl (fun acc nid => insert nid acc) m ↔ x ∈ m ∨ x ∈ l) := by
  intro l
  induction l with
  | nil => intro m x; simp
  | cons a l ih =>
    intro m x
    rw [List.foldl_cons, ih]
    simp only [Finset.mem_insert, List.mem_cons]
    tauto

/-- C9 (amended): `refresh_search` (hence any search) leaves the marked
set untouched — a marked id stays marked whatever the new query returns —
and the three explicit marking operations (`toggle_mark`, `mark_all`,
`clear_all_marks`) never modify the persisted store.  Membership does
not, however, change *only* through those three operations: the import
flow also marks the notes it creates — after `do_import`, an id is
marked exactly when it was already marked or is one of the newly
imported ids (`import_adds_marks`); in particular import never unmarks
anything. -/
theorem marked_set_stability (a : AppState) (text : Str) (h : Str → Str) (now : Nat)
    (files : List (Str × Str)) :
    (a.refresh_search text).marked = a.marked
    ∧ (a.action_toggle_mark).store = a.store
    ∧ (a.action_mark_all).1.store = a.store
    ∧ (a.action_clear_all_marks).1.store = a.store
    ∧ (∀ nid, nid ∈ (a.do_import h now files).1.marked ↔
        nid ∈ a.marked ∨ nid ∈ (importFilesAux h now files a.store).2.2.2) := by
  refine ⟨rfl, ?_, ?_, ?_, ?_⟩
  · unfold AppState.action_toggle_mark
    repeat' split
    all_goals first
    | rfl
    | simp only [apply_ite AppState.store, ite_self]
  · unfold AppState.action_mark_all
    repeat' split
    all_goals rfl
  · unfold AppState.action_clear_all_marks
    repeat' split
    all_goals rfl
  · intro nid
    unfold AppState.do_import
    by_cases hf : files.isEmpty
    · rw [if_pos hf]
      rw [List.isEmpty_iff] at hf
      subst hf
      simp [importFilesAux]
    · rw [if_neg hf]
      exact mem_foldl_insert _ _ _

/-! ### Saving an imported note drops its dedup identity (claim C10) -/

theorem get_after_update (s : NoteStore) (now : Nat) (t b : Str) (ih : Option Str)
    {nid : Nat} {n : Note} (hget : s.get nid = some n) :
    (s.upsert now t b (some nid) ih).1.get nid =
      some { n with title := t, body := b, updated_at := now, import_hash := ih } := by
  have hid := get_some_id hget
  unfold NoteStore.get at hget
  simp only [NoteStore.upsert, NoteStore.get]
  rw [List.find?_map]
  have hcomp : ((fun m : Note => m.id == nid) ∘ (fun m : Note =>
      if m.id = nid then { m with title := t, body := b, updated_at := now, import_hash := ih }
      else m)) = (fun m : Note => m.id == nid) := by
    funext m
    by_cases hm : m.id = nid <;> simp [hm]
  rw [hcomp, hget]
  simp [hid]

theorem hash_gone_after_update (s : NoteStore) (now : Nat) (t b : Str)
    (nid : Nat) (d : Str)
    (huniq : ∀ m ∈ s.notes, m.import_hash = some d → m.id = nid) :
    (s.upsert now t b (some nid) none).1.note_exists_by_hash d = false := by
  simp only [NoteStore.upsert, NoteStore.note_exists_by_hash]
  rw [List.any_map, List.any_eq_false]
  intro m hm
  by_cases hmid : m.id = nid
  · simp [Function.comp, hmid]
  · simp only [Function.comp, if_neg hmid, beq_iff_eq]
    intro hcon
    exact hmid (huniq m hm hcon)

/-- C10: a note that was created by import (non-null `import_hash` `d`,
held by no other note) loses its dedup identity on the first save in
EDIT mode: `action_save_edit` calls `upsert` with the `import_hash`
argument at its default `None`, so afterwards the note's `import_hash`
is null, `note_exists_by_hash d` is false, and re-importing the
identical file inserts a second note (returning `(1, 0, new id)` and
growing the count by 1) instead of being skipped as a duplicate. -/
theorem save_edit_unlinks_import_hash
    (a : AppState) (now now2 : Nat) (hf : Str → Str) (nid : Nat) (n : Note)
    (d stem content : Str)
    (hmode : a.mode = Mode.EDIT)
    (hid : a.editing_note_id = some nid)
    (hget : a.store.get nid = some n)
    (hhash : n.import_hash = some d)
    (huniq : ∀ m ∈ a.store.notes, m.import_hash = some d → m.id = nid)
    (hd : compute_hash hf (importTitle stem) content = d) :
    ((a.action_save_edit now).1.store.get nid).map Note.import_hash = some none
    ∧ (a.action_save_edit now).1.store.note_exists_by_hash d = false
    ∧ ((a.action_save_edit now).1.store.import_text_file hf now2 stem content).2 =
        (1, 0, some (a.action_save_edit now).1.store.next_id)
    ∧ ((a.action_save_edit now).1.store.import_text_file hf now2 stem content).1.count =
        (a.action_save_edit now).1.store.count + 1 := by
  have hstore : (a.action_save_edit now).1.store =
      (a.store.upsert now n.title a.editor_text (some nid) none).1 := by
    simp [AppState.action_save_edit, hmode, hid, hget, AppState.refresh_search]
  have hgone : (a.store.upsert now n.title a.editor_text (some nid) none).1.note_exists_by_hash
      d = false :=
    hash_gone_after_update a.store now n.title a.editor_text nid d huniq
  have hnew : (a.store.upsert now n.title a.editor_text (some nid) none).1.note_exists_by_hash
      (compute_hash hf (importTitle stem) content) = false := by
    rw [hd]
    exact hgone
  obtain ⟨hist, hires⟩ := import_new_inserts
    (a.store.upsert now n.title a.editor_text (some nid) none).1 hf now2 stem content hnew
  refine ⟨?_, ?_, ?_, ?_⟩
  · rw [hstore, get_after_update a.store now n.title a.editor_text none hget]
    simp
  · rw [hstore]
    exact hgone
  · rw [hstore]
    exact hires
  · rw [hstore, hist]
    simp [NoteStore.upsert, NoteStore.count]

/-- C10 (witness): the theorem applied to `editImported`, the session
editing the note imported from file `a` with content `b` (identity
digest stand-in). -/
theorem save_edit_unlinks_import_hash_witness :
    ((editImported.action_save_edit 9).1.store.get 1).map Note.import_hash = some none
    ∧ (editImported.action_save_edit 9).1.store.note_exists_by_hash (lit "a||b") = false
    ∧ ((editImported.action_save_edit 9).1.store.import_text_file (fun x => x) 10
          (lit "a") (lit "b")).2 =
        (1, 0, some (editImported.action_save_edit 9).1.store.next_id)
    ∧ ((editImported.action_save_edit 9).1.store.import_text_file (fun x => x) 10
          (lit "a") (lit "b")).1.count =
        (editImported.action_save_edit 9).1.store.count + 1 :=
  save_edit_unlinks_import_hash editImported 9 10 (fun x => x) 1
    { id := 1, title := lit "a", body := lit "b", created_at := 0, updated_at := 0,
      import_hash := some (lit "a||b") }
    (lit "a||b") (lit "a") (lit "b")
    rfl rfl (by decide) (by decide) (by decide) (by decide)
